import Mathlib

/-!
Verification of the Raft consensus core of a small replicated service
(`src/raft.rs`, `src/bin/server.rs`).  The Rust code is shallowly embedded:
each state-mutating block becomes a pure function on an explicit `RaftState`,
network and disk I/O are reflected as returned messages and a `persisted`
flag, and `Instant::now()` is passed in as an abstract tick `now : Nat`.
`u64` fields are modelled as `Nat` (the code performs no wrapping
arithmetic on them; `saturating_add 1` on a `u64` coincides with `Nat`
addition below `2^64 - 1`).
-/

/-- Mirror of `ServerRole` in `lib.rs`. -/
inductive ServerRole where
  | Follower
  | Candidate
  | Leader
deriving DecidableEq, Repr

/-- Mirror of `LogEntry` (`term: u64, command: String`), as used throughout
`raft.rs` (`crate::LogEntry`). -/
structure LogEntry where
  term : Nat
  command : String
deriving DecidableEq, Repr

/-- Mirror of `crate::RaftPersistentState` as constructed in
`persist_state_to_disk` in `raft.rs`: the triple written to disk. -/
structure RaftPersistentState where
  current_term : Nat
  voted_for : Option String
  log : List LogEntry
deriving DecidableEq, Repr

/-- Mirror of `RaftState` in `raft.rs`.  `HashMap<String, u64>` is modelled
as an association list with unique keys maintained by `alistInsert`;
`HashSet<String>` as a list; `Instant` as a `Nat` tick. -/
structure RaftState where
  current_term : Nat
  voted_for : Option String
  role : ServerRole
  leader_id : Option String
  last_heartbeat : Nat
  votes_received : List String
  log : List LogEntry
  commit_index : Nat
  last_applied : Nat
  next_index : List (String × Nat)
  match_index : List (String × Nat)
deriving DecidableEq, Repr

/-- Mirror of the `RaftMessage` enum as used in `raft.rs` (the
vote/append request/response variants exchanged between peers). -/
inductive RaftMessage where
  | RequestVote (term : Nat) (candidate_id : String)
      (last_log_index : Nat) (last_log_term : Nat)
  | RequestVoteResponse (term : Nat) (vote_granted : Bool) (voter_id : String)
  | AppendEntries (term : Nat) (leader_id : String)
      (prev_log_index : Nat) (prev_log_term : Nat)
      (entries : List LogEntry) (leader_commit : Nat)
  | AppendEntriesResponse (term : Nat) (follower_id : String)
      (success : Bool) (last_log_index : Nat)
deriving DecidableEq, Repr

/-- `HashMap::get`: lookup in an association list. -/
def alistGet (m : List (String × Nat)) (k : String) : Option Nat :=
  match m with
  | [] => none
  | (k', v) :: rest => if k' = k then some v else alistGet rest k

/-- `HashMap::insert`: replace the binding for `k`, or add it. -/
def alistInsert (m : List (String × Nat)) (k : String) (v : Nat) :
    List (String × Nat) :=
  match m with
  | [] => [(k, v)]
  | (k', v') :: rest =>
      if k' = k then (k, v) :: rest else (k', v') :: alistInsert rest k v

/-- `HashMap::entry(k).or_insert(v)`: insert `v` only when `k` is absent. -/
def alistOrInsert (m : List (String × Nat)) (k : String) (v : Nat) :
    List (String × Nat) :=
  match alistGet m k with
  | some _ => m
  | none => alistInsert m k v

/-- Number of map entries whose value is `≥ n`
(the tally in the leader's commit loop, `raft.rs` lines 452-456). -/
def countGE (m : List (String × Nat)) (n : Nat) : Nat :=
  (m.filter (fun p => n ≤ p.2)).length

/-- `state.log.get(i).map(|e| e.term).unwrap_or(0)`. -/
def termAt (log : List LogEntry) (i : Nat) : Nat :=
  ((log.get? i).map LogEntry.term).getD 0

/-- `RaftState::last_log_index`: `log.len() as u64 - 1`
(the log always holds the sentinel, so no underflow in the code). -/
def RaftState.last_log_index (s : RaftState) : Nat :=
  s.log.length - 1

/-- `RaftState::last_log_term`: `log.last().map(|e| e.term).unwrap_or(0)`. -/
def RaftState.last_log_term (s : RaftState) : Nat :=
  (s.log.getLast?.map LogEntry.term).getD 0

/-- `RaftState::new`: fresh volatile state with the sentinel log entry. -/
def RaftState.new : RaftState where
  current_term := 0
  voted_for := none
  role := ServerRole.Follower
  leader_id := none
  last_heartbeat := 0
  votes_received := []
  log := [{ term := 0, command := "init" }]
  commit_index := 0
  last_applied := 0
  next_index := []
  match_index := []

/-- The "all server rules" block at the top of `handle_raft_message`
(`raft.rs` lines 516-529): on a `RequestVote` or `AppendEntries` request
whose term exceeds `current_term`, adopt the term, become Follower, clear
`voted_for` and `leader_id`. -/
def allServerRule (s : RaftState) (msg : RaftMessage) : RaftState :=
  match msg with
  | RaftMessage.RequestVote t _ _ _ =>
      if s.current_term < t then
        { s with current_term := t, role := ServerRole.Follower,
                 voted_for := none, leader_id := none }
      else s
  | RaftMessage.AppendEntries t _ _ _ _ _ =>
      if s.current_term < t then
        { s with current_term := t, role := ServerRole.Follower,
                 voted_for := none, leader_id := none }
      else s
  | _ => s

/-- The follower-side merge loop of the AppendEntries handler
(`raft.rs` lines 620-638): starting at slot `i = prev_log_index + 1`, an
existing entry with a conflicting term truncates the log to length `i`
before the incoming entry is pushed; a matching entry is kept; entries past
the end are pushed. -/
def mergeLoop : List LogEntry → Nat → List LogEntry → List LogEntry
  | log, _, [] => log
  | log, i, e :: rest =>
      if h : i < log.length then
        if (log.get ⟨i, h⟩).term ≠ e.term then
          mergeLoop (log.take i ++ [e]) (i + 1) rest
        else
          mergeLoop log (i + 1) rest
      else
        mergeLoop (log ++ [e]) (i + 1) rest

/-- Modelled from the spec's merge description (§4.3.4 follower step 4):
for each incoming entry at slot `i`, a conflicting existing entry truncates
the log to length `i` and the entry is appended, a matching entry is left
unchanged, and entries past the end are appended. -/
def mergeSpec : List LogEntry → Nat → List LogEntry → List LogEntry
  | log, _, [] => log
  | log, i, e :: rest =>
      if i < log.length then
        if termAt log i ≠ e.term then
          mergeSpec (log.take i ++ [e]) (i + 1) rest
        else
          mergeSpec log (i + 1) rest
      else
        mergeSpec (log ++ [e]) (i + 1) rest

/-- Result of one call to `handle_raft_message`: the new state, the reply
(`None` for response messages), and whether `persist_state_to_disk` was
invoked on this path. -/
structure StepResult where
  state : RaftState
  response : Option RaftMessage
  persisted : Bool
deriving DecidableEq, Repr

/-- `RaftNode::handle_raft_message` (`raft.rs` lines 512-682), with
`Instant::now()` passed in as `now`. -/
def handle_raft_message (server_id : String) (now : Nat) (s0 : RaftState)
    (msg : RaftMessage) : StepResult :=
  let s := allServerRule s0 msg
  match msg with
  | RaftMessage.RequestVote term candidate_id last_log_index last_log_term =>
      let current_term := s.current_term
      if term < current_term then
        { state := s,
          response := some (RaftMessage.RequestVoteResponse s.current_term false server_id),
          persisted := false }
      else if s.voted_for = none ∨ s.voted_for = some candidate_id then
        let my_last_log_term := s.last_log_term
        let my_last_log_index := s.last_log_index
        if last_log_term > my_last_log_term ∨
            (last_log_term = my_last_log_term ∧ last_log_index ≥ my_last_log_index) then
          let s' := { s with voted_for := some candidate_id, last_heartbeat := now }
          { state := s',
            response := some (RaftMessage.RequestVoteResponse s'.current_term true server_id),
            persisted := true }
        else
          { state := s,
            response := some (RaftMessage.RequestVoteResponse s.current_term false server_id),
            persisted := false }
      else
        { state := s,
          response := some (RaftMessage.RequestVoteResponse s.current_term false server_id),
          persisted := false }
  | RaftMessage.AppendEntries term leader_id prev_log_index prev_log_term entries leader_commit =>
      let current_term := s.current_term
      if term < current_term then
        { state := s,
          response := some (RaftMessage.AppendEntriesResponse s.current_term server_id false s.last_log_index),
          persisted := false }
      else
        let s := { s with role := ServerRole.Follower, leader_id := some leader_id,
                          last_heartbeat := now }
        if prev_log_index < s.log.length ∧ termAt s.log prev_log_index = prev_log_term then
          let step :=
            if entries = [] then (s.log, prev_log_index, false)
            else (mergeLoop s.log (prev_log_index + 1) entries,
                  prev_log_index + entries.length, true)
          let s := { s with log := step.1 }
          let s :=
            if s.commit_index < leader_commit then
              { s with commit_index := min leader_commit step.2.1 }
            else s
          { state := s,
            response := some (RaftMessage.AppendEntriesResponse s.current_term server_id true s.last_log_index),
            persisted := step.2.2 }
        else
          { state := s,
            response := some (RaftMessage.AppendEntriesResponse s.current_term server_id false s.last_log_index),
            persisted := false }
  | RaftMessage.RequestVoteResponse _ _ _ =>
      { state := s, response := none, persisted := false }
  | RaftMessage.AppendEntriesResponse _ _ _ _ =>
      { state := s, response := none, persisted := false }

/-- Configuration slice needed by the leader-side response processing:
`config.server_id` and `config.peers` (which excludes self). -/
structure LeaderCtx where
  server_id : String
  peers : List String

/-- First half of the `success` branch of the leader's
`AppendEntriesResponse` processing (`raft.rs` lines 421-442):
`inferred_match := prev_idx + entries_len`,
`new_match := max(inferred_match, response.last_log_index)`; raise
`match_index[peer]` to `new_match` if larger, then raise
`next_index[peer]` to `new_match + 1` if larger. -/
def updateMatchNext (s : RaftState) (peer : String)
    (prev_idx entries_len resp_lli : Nat) : RaftState :=
  let inferred_match := prev_idx + entries_len
  let new_match := max inferred_match resp_lli
  let cur_match := (alistGet s.match_index peer).getD 0
  let s1 :=
    if cur_match < new_match then
      { s with match_index := alistInsert s.match_index peer new_match }
    else s
  let desired_next := new_match + 1
  let cur_next := (alistGet s1.next_index peer).getD 1
  if cur_next < desired_next then
    { s1 with next_index := alistInsert s1.next_index peer desired_next }
  else s1

/-- Second half of the `success` branch (`raft.rs` lines 444-463): ensure
the leader's own `match_index` entry exists, then for each
`n` in `(commit_index, last_index]` set `commit_index := n` whenever a
majority of `match_index` values are `≥ n` and `log[n].term` equals
`current_term`. -/
def advanceCommit (ctx : LeaderCtx) (s : RaftState) : RaftState :=
  let last_index := s.last_log_index
  let cluster_size := ctx.peers.length + 1
  let majority := cluster_size / 2 + 1
  let leader_last_idx := s.last_log_index
  let s := { s with
    match_index := alistOrInsert s.match_index ctx.server_id leader_last_idx }
  let ns := List.range' (s.commit_index + 1) (last_index - s.commit_index)
  let ci := ns.foldl
    (fun ci n =>
      if majority ≤ countGE s.match_index n ∧ termAt s.log n = s.current_term
      then n else ci)
    s.commit_index
  { s with commit_index := ci }

/-- The whole `success` branch of the leader's response processing. -/
def processAppendSuccess (ctx : LeaderCtx) (s : RaftState) (peer : String)
    (prev_idx entries_len resp_lli : Nat) : RaftState :=
  advanceCommit ctx (updateMatchNext s peer prev_idx entries_len resp_lli)

/-- The `!success` branch (`raft.rs` lines 464-477): treat
`response.last_log_index + 1` as a conflict hint and lower
`next_index[peer]` to it, but never raise it, and never below 1. -/
def processAppendFailure (s : RaftState) (peer : String) (resp_lli : Nat) :
    RaftState :=
  let suggested := resp_lli + 1
  let cur_next := (alistGet s.next_index peer).getD 1
  if suggested < cur_next then
    let new_next := if suggested = 0 then 1 else suggested
    { s with next_index := alistInsert s.next_index peer new_next }
  else s

/-- Leader-side processing of one `AppendEntriesResponse`
(`raft.rs` lines 406-477).  `current_term` is the term snapshot the RPC
round was sent with. -/
def processAppendResponse (ctx : LeaderCtx) (current_term : Nat)
    (s : RaftState) (peer : String) (resp_term : Nat) (success : Bool)
    (resp_lli : Nat) (prev_idx entries_len : Nat) : RaftState :=
  if current_term < resp_term then
    { s with current_term := resp_term, role := ServerRole.Follower,
             voted_for := none, leader_id := none }
  else if success then
    processAppendSuccess ctx s peer prev_idx entries_len resp_lli
  else
    processAppendFailure s peer resp_lli

/-- Candidate-side processing of one `RequestVoteResponse` carrying
`resp_term` (`raft.rs` lines 230-239): step down on a higher term without
touching `leader_id`. -/
def processVoteResponse (current_term : Nat) (s : RaftState)
    (resp_term : Nat) : RaftState :=
  if current_term < resp_term then
    { s with current_term := resp_term, role := ServerRole.Follower,
             voted_for := none }
  else s

/-- The state mutation at the top of `start_election`
(`raft.rs` lines 199-204). -/
def start_election_prepare (server_id : String) (s : RaftState) : RaftState :=
  { s with role := ServerRole.Candidate,
           current_term := s.current_term + 1,
           voted_for := some server_id,
           votes_received := [server_id] }

/-- Outcome of the candidate's vote-collection loop. -/
inductive ElectionOutcome where
  | leader
  | steppedDown (t : Nat)
  | failed
deriving DecidableEq, Repr

/-- The vote-collection loop of `start_election`
(`raft.rs` lines 216-262): responses are processed in order
(`none` stands for a missing/failed response); a higher term aborts the
election; reaching `majority` granted votes (the self-vote included in the
initial tally) makes the node leader, checked both mid-loop and after the
loop. -/
def electionLoop (majority current_term : Nat) :
    Nat → List (Option (Nat × Bool)) → ElectionOutcome
  | votes, [] => if majority ≤ votes then ElectionOutcome.leader else ElectionOutcome.failed
  | votes, r :: rest =>
      match r with
      | some (t, granted) =>
          if current_term < t then ElectionOutcome.steppedDown t
          else if granted then
            if majority ≤ votes + 1 then ElectionOutcome.leader
            else electionLoop majority current_term (votes + 1) rest
          else electionLoop majority current_term votes rest
      | none => electionLoop majority current_term votes rest

/-- Number of granted votes among the peer responses. -/
def countGranted (rs : List (Option (Nat × Bool))) : Nat :=
  (rs.filter (fun r => match r with | some (_, g) => g | none => false)).length

/-- Body of the per-peer initialization loop in `become_leader_internal`
(`raft.rs` lines 282-286). -/
def leaderInitStep (last_index : Nat) (st : RaftState) (p : String) : RaftState :=
  { st with next_index := alistInsert st.next_index p (last_index + 1),
            match_index := alistInsert st.match_index p 0 }

/-- `become_leader_internal` (`raft.rs` lines 274-291): set role and
`leader_id`, initialize `next_index[p] := last_index + 1` and
`match_index[p] := 0` for every peer, then `match_index[self] := last_index`. -/
def become_leader_internal (server_id : String) (peers : List String)
    (s : RaftState) : RaftState :=
  let s1 := { s with role := ServerRole.Leader, leader_id := some server_id }
  let last_index := s1.last_log_index
  let s2 := peers.foldl (leaderInitStep last_index) s1
  { s2 with match_index := alistInsert s2.match_index server_id last_index }

/-- `MAX_ENTRIES_PER_RPC` in `send_append_entries`. -/
def MAX_ENTRIES : Nat := 8

/-- Construction of the per-peer `AppendEntries` message in
`send_append_entries` (`raft.rs` lines 331-365). -/
def buildAppendEntries (server_id : String) (current_term leader_commit : Nat)
    (s : RaftState) (peer : String) : RaftMessage :=
  let last_index := s.last_log_index
  let next_index := (alistGet s.next_index peer).getD (last_index + 1)
  let prev_index := if 0 < next_index then next_index - 1 else 0
  let prev_term := termAt s.log prev_index
  let entries :=
    if next_index ≤ last_index then
      (s.log.drop next_index).take (last_index + 1 - next_index)
    else []
  let entries_chunk :=
    if MAX_ENTRIES < entries.length then entries.take MAX_ENTRIES else entries
  RaftMessage.AppendEntries current_term server_id prev_index prev_term
    entries_chunk leader_commit

/-- One round of `send_append_entries`: the messages built for all peers
from one state snapshot. -/
def sendAppendEntriesRound (server_id : String) (peers : List String)
    (current_term leader_commit : Nat) (s : RaftState) :
    List (String × RaftMessage) :=
  peers.map (fun p => (p, buildAppendEntries server_id current_term leader_commit s p))

/-- `become_leader` (`raft.rs` lines 294-307): run
`become_leader_internal`, then (after persisting) send a round of
AppendEntries built with the captured term and commit index. -/
def become_leader_step (server_id : String) (peers : List String)
    (s : RaftState) : RaftState × List (String × RaftMessage) :=
  let s' := become_leader_internal server_id peers s
  (s', sendAppendEntriesRound server_id peers s'.current_term s'.commit_index s')

/-- `propose_entry` (`raft.rs` lines 734-767) as a pure state transition:
`none` when the node is not the leader; otherwise append the entry, update
the leader's own `match_index`, and default-fill `next_index` for peers. -/
def propose_entry (server_id : String) (peers : List String)
    (command : String) (s : RaftState) : Option RaftState :=
  if s.role ≠ ServerRole.Leader then none
  else
    let e : LogEntry := { term := s.current_term, command := command }
    let s := { s with log := s.log ++ [e] }
    let last := s.last_log_index
    let s := { s with match_index := alistInsert s.match_index server_id last }
    let s := peers.foldl
      (fun st p => { st with next_index := alistOrInsert st.next_index p (last + 1) }) s
    some s

/-- `persist_state_to_disk` (`raft.rs` lines 112-129): the persistent
triple captured from the state (serialization is modelled as the identity
on this triple). -/
def persistOf (s : RaftState) : RaftPersistentState :=
  { current_term := s.current_term, voted_for := s.voted_for, log := s.log }

/-- `RaftNode::new` (`raft.rs` lines 78-103): start from `RaftState::new`;
when a persisted state was loaded, restore `current_term`, `voted_for` and
`log`, then set `commit_index := last_log_index` and
`last_applied := commit_index`.  `none` models both an absent and an
undeserializable state file (`load_state_from_disk` returns `None` for
both). -/
def restoreNode (loaded : Option RaftPersistentState) : RaftState :=
  match loaded with
  | none => RaftState.new
  | some p =>
      let s := { RaftState.new with
        current_term := p.current_term, voted_for := p.voted_for, log := p.log }
      let s := { s with commit_index := s.last_log_index }
      { s with last_applied := s.commit_index }

/-- The observable actions of `handle_client` in `server.rs`. -/
inductive ClientAction where
  | sendFrame (len : Nat) (payload : String)
  | readMeta
  | readImage
  | runWork
deriving DecidableEq, Repr

/-- The redirect string built in `handle_client`
(`server.rs` lines 136-140). -/
def redirect_message : Option String → String
  | some id => "NOT_LEADER:" ++ id
  | none => "NO_LEADER"

/-- `handle_client` (`server.rs` lines 131-202) as its sequence of
observable actions.  On a non-leader: one framed redirect payload and
return.  On the leader: read the metadata frame, read the image frame, run
the work function, and send its output as a framed payload. -/
def handle_client (is_leader : Bool) (leader_id : Option String)
    (work_output : String) : List ClientAction :=
  if ¬ is_leader then
    let m := redirect_message leader_id
    [ClientAction.sendFrame m.utf8ByteSize m]
  else
    [ClientAction.readMeta, ClientAction.readImage, ClientAction.runWork,
     ClientAction.sendFrame work_output.utf8ByteSize work_output]

theorem alistGet_insert_self (m : List (String × Nat)) (k : String) (v : Nat) :
    alistGet (alistInsert m k v) k = some v := by
  induction m with
  | nil => simp [alistInsert, alistGet]
  | cons hd tl ih =>
      obtain ⟨k', v'⟩ := hd
      by_cases h : k' = k
      · simp [alistInsert, alistGet, h]
      · simp [alistInsert, alistGet, h, ih]

theorem alistGet_insert_ne (m : List (String × Nat)) (k k' : String) (v : Nat)
    (h : k' ≠ k) :
    alistGet (alistInsert m k v) k' = alistGet m k' := by
  have h' : ¬ k = k' := fun hh => h hh.symm
  induction m with
  | nil => simp [alistInsert, alistGet, h']
  | cons hd tl ih =>
      obtain ⟨k'', v''⟩ := hd
      by_cases hk : k'' = k
      · subst hk
        simp [alistInsert, alistGet, h']
      · by_cases hk' : k'' = k'
        · simp [alistInsert, alistGet, hk, hk', h]
        · simp [alistInsert, alistGet, hk, hk', ih]

/-- Reading `match_index[p]` with the code's default
(`unwrap_or(0)`, `raft.rs` line 426). -/
def matchGet (s : RaftState) (p : String) : Nat :=
  (alistGet s.match_index p).getD 0

/-- Reading `next_index[p]` with the code's default
(`unwrap_or(1)`, `raft.rs` lines 436 and 469). -/
def nextGet (s : RaftState) (p : String) : Nat :=
  (alistGet s.next_index p).getD 1

/-- C5: on a `success=true` response the leader sets
`matchIndex[p] := max(matchIndex[p], max(prevLogIndex + len(entries), response.lastLogIndex))`
and `nextIndex[p] := max(nextIndex[p], newMatch + 1)`; on `success=false` it
sets `nextIndex[p] := min(nextIndex[p], max(response.lastLogIndex + 1, 1))`
and leaves `matchIndex` untouched; hence `matchIndex[p]` never decreases and
`nextIndex[p]` decreases only on a failure hint. -/
theorem leader_pointer_updates (s : RaftState) (peer : String)
    (pidx elen rlli : Nat) :
    matchGet (updateMatchNext s peer pidx elen rlli) peer
      = max (matchGet s peer) (max (pidx + elen) rlli) ∧
    nextGet (updateMatchNext s peer pidx elen rlli) peer
      = max (nextGet s peer) (max (pidx + elen) rlli + 1) ∧
    matchGet s peer ≤ matchGet (updateMatchNext s peer pidx elen rlli) peer ∧
    nextGet s peer ≤ nextGet (updateMatchNext s peer pidx elen rlli) peer ∧
    nextGet (processAppendFailure s peer rlli) peer
      = min (nextGet s peer) (max (rlli + 1) 1) ∧
    (processAppendFailure s peer rlli).match_index = s.match_index ∧
    nextGet (processAppendFailure s peer rlli) peer ≤ nextGet s peer := by
  have hmain :
      matchGet (updateMatchNext s peer pidx elen rlli) peer
        = max (matchGet s peer) (max (pidx + elen) rlli) ∧
      nextGet (updateMatchNext s peer pidx elen rlli) peer
        = max (nextGet s peer) (max (pidx + elen) rlli + 1) := by
    by_cases h1 : (alistGet s.match_index peer).getD 0 < max (pidx + elen) rlli
    · by_cases h2 : (alistGet s.next_index peer).getD 1 < max (pidx + elen) rlli + 1
      · simp only [updateMatchNext, matchGet, nextGet, if_pos h1, if_pos h2,
          alistGet_insert_self, Option.getD_some]
        constructor
        · exact (Nat.max_eq_right (Nat.le_of_lt h1)).symm
        · exact (Nat.max_eq_right (Nat.le_of_lt h2)).symm
      · simp only [updateMatchNext, matchGet, nextGet, if_pos h1, if_neg h2,
          alistGet_insert_self, Option.getD_some]
        constructor
        · exact (Nat.max_eq_right (Nat.le_of_lt h1)).symm
        · exact (Nat.max_eq_left (Nat.le_of_not_lt h2)).symm
    · by_cases h2 : (alistGet s.next_index peer).getD 1 < max (pidx + elen) rlli + 1
      · simp only [updateMatchNext, matchGet, nextGet, if_pos h2, if_neg h1,
          alistGet_insert_self, Option.getD_some]
        constructor
        · exact (Nat.max_eq_left (Nat.le_of_not_lt h1)).symm
        · exact (Nat.max_eq_right (Nat.le_of_lt h2)).symm
      · simp only [updateMatchNext, matchGet, nextGet, if_neg h1, if_neg h2]
        constructor
        · exact (Nat.max_eq_left (Nat.le_of_not_lt h1)).symm
        · exact (Nat.max_eq_left (Nat.le_of_not_lt h2)).symm
  have hfail :
      nextGet (processAppendFailure s peer rlli) peer
        = min (nextGet s peer) (max (rlli + 1) 1) ∧
      (processAppendFailure s peer rlli).match_index = s.match_index := by
    have hsugg : max (rlli + 1) 1 = rlli + 1 :=
      Nat.max_eq_left (Nat.succ_le_succ (Nat.zero_le rlli))
    by_cases h1 : rlli + 1 < (alistGet s.next_index peer).getD 1
    · simp only [processAppendFailure, nextGet, if_pos h1,
        if_neg (Nat.succ_ne_zero rlli), alistGet_insert_self, Option.getD_some]
      exact ⟨by rw [hsugg, Nat.min_eq_right (Nat.le_of_lt h1)], trivial⟩
    · simp only [processAppendFailure, nextGet, if_neg h1]
      exact ⟨by rw [hsugg, Nat.min_eq_left (Nat.le_of_not_lt h1)], trivial⟩
  refine ⟨hmain.1, hmain.2, ?_, ?_, hfail.1, hfail.2, ?_⟩
  · rw [hmain.1]; exact Nat.le_max_left _ _
  · rw [hmain.2]; exact Nat.le_max_left _ _
  · rw [hfail.1]; exact Nat.min_le_left _ _

/-- C9: a client connection handled while the node is not leader gets
exactly one framed payload, `NOT_LEADER:<leaderId>` when a leader is known
and `NO_LEADER` otherwise, and the dispatcher neither reads the request
body nor runs the work function. -/
theorem non_leader_redirect (leader_id : Option String) (work_output : String) :
    handle_client false leader_id work_output
      = [ClientAction.sendFrame (redirect_message leader_id).utf8ByteSize
           (redirect_message leader_id)] ∧
    (∀ id, redirect_message (some id) = "NOT_LEADER:" ++ id) ∧
    redirect_message none = "NO_LEADER" ∧
    ClientAction.readMeta ∉ handle_client false leader_id work_output ∧
    ClientAction.readImage ∉ handle_client false leader_id work_output ∧
    ClientAction.runWork ∉ handle_client false leader_id work_output := by
  refine ⟨rfl, fun _ => rfl, rfl, ?_, ?_, ?_⟩ <;> simp [handle_client]

theorem non_leader_redirect_witness :
    ClientAction.runWork ∉ handle_client false (some "S2") "out" :=
  (non_leader_redirect (some "S2") "out").2.2.2.2.2

/-- C10: a node recreated from a readable persisted state has
`commitIndex` equal to the restored log's last index and `lastApplied`
equal to that `commitIndex`; with no (or unreadable) state on disk it
starts with `commitIndex = lastApplied = 0` and only the sentinel entry. -/
theorem restore_commit_semantics :
    (∀ p : RaftPersistentState, p.log ≠ [] →
        (restoreNode (some p)).commit_index = p.log.length - 1 ∧
        (restoreNode (some p)).last_applied = (restoreNode (some p)).commit_index ∧
        (restoreNode (some p)).log = p.log) ∧
    ((restoreNode none).commit_index = 0 ∧
     (restoreNode none).last_applied = 0 ∧
     (restoreNode none).log = [LogEntry.mk 0 "init"]) := by
  exact ⟨fun p _ => ⟨rfl, rfl, rfl⟩, rfl, rfl, rfl⟩

theorem restore_commit_semantics_witness :
    (restoreNode (some (RaftPersistentState.mk 1 (some "A")
        [LogEntry.mk 0 "init", LogEntry.mk 1 "t1"]))).commit_index = 1 :=
  (restore_commit_semantics.1
    (RaftPersistentState.mk 1 (some "A") [LogEntry.mk 0 "init", LogEntry.mk 1 "t1"])
    (by decide)).1

/-- C7: persisting `(currentTerm, votedFor, log)` and recreating the node
restores exactly those three fields; concretely, after a single-node
election (`peers = []`, majority `1`) and proposals `t1`, `t2`, `t3`, the
recreated node has log `[init, t1, t2, t3]`, `currentTerm = 1` and
`votedFor = self`. -/
theorem persistence_roundtrip :
    (∀ s : RaftState,
        (restoreNode (some (persistOf s))).current_term = s.current_term ∧
        (restoreNode (some (persistOf s))).voted_for = s.voted_for ∧
        (restoreNode (some (persistOf s))).log = s.log) ∧
    electionLoop ((([] : List String).length + 1) / 2 + 1) 1 1 []
      = ElectionOutcome.leader ∧
    (((propose_entry "A" [] "t1"
          (become_leader_internal "A" [] (start_election_prepare "A" RaftState.new))).bind
        (fun s => propose_entry "A" [] "t2" s)).bind
        (fun s => propose_entry "A" [] "t3" s)).map
      (fun sf => ((restoreNode (some (persistOf sf))).current_term,
                  (restoreNode (some (persistOf sf))).voted_for,
                  (restoreNode (some (persistOf sf))).log))
      = some (1, some "A",
          [LogEntry.mk 0 "init", LogEntry.mk 1 "t1",
           LogEntry.mk 1 "t2", LogEntry.mk 1 "t3"]) := by
  exact ⟨fun s => ⟨rfl, rfl, rfl⟩, rfl, by decide⟩

theorem foldl_pick (p : Nat → Prop) [DecidablePred p] :
    ∀ (ns : List Nat) (c : Nat),
      ns.foldl (fun ci n => if p n then n else ci) c = c ∨
      (ns.foldl (fun ci n => if p n then n else ci) c ∈ ns ∧
        p (ns.foldl (fun ci n => if p n then n else ci) c)) := by
  intro ns
  induction ns with
  | nil => intro c; left; rfl
  | cons n rest ih =>
      intro c
      simp only [List.foldl_cons]
      rcases ih (if p n then n else c) with h | ⟨hm, hp⟩
      · rw [h]
        by_cases hn : p n
        · right
          exact ⟨by simp [hn], by simp [hn]⟩
        · left; simp [hn]
      · right
        exact ⟨List.mem_cons_of_mem _ hm, hp⟩

/-- C1: after a successful AppendEntries response the leader advances
`commitIndex` only to an `N` in `(commitIndex, lastLogIndex]` for which a
majority (`(clusterSize)/2 + 1`, the leader's own `matchIndex` entry
included) of `matchIndex` values are `≥ N` and `log[N].term = currentTerm`;
it never sets `commitIndex` to an index whose entry carries another term. -/
theorem leader_commit_of_own_term (ctx : LeaderCtx) (s : RaftState)
    (peer : String) (pidx elen rlli : Nat) :
    processAppendSuccess ctx s peer pidx elen rlli
      = advanceCommit ctx (updateMatchNext s peer pidx elen rlli) ∧
    ((advanceCommit ctx s).commit_index = s.commit_index ∨
      (s.commit_index < (advanceCommit ctx s).commit_index ∧
       (advanceCommit ctx s).commit_index ≤ s.last_log_index ∧
       (ctx.peers.length + 1) / 2 + 1
         ≤ countGE (alistOrInsert s.match_index ctx.server_id s.last_log_index)
             (advanceCommit ctx s).commit_index ∧
       termAt s.log (advanceCommit ctx s).commit_index = s.current_term)) := by
  refine ⟨rfl, ?_⟩
  have hred : (advanceCommit ctx s).commit_index
      = (List.range' (s.commit_index + 1) (s.last_log_index - s.commit_index)).foldl
          (fun ci n =>
            if (ctx.peers.length + 1) / 2 + 1
                  ≤ countGE (alistOrInsert s.match_index ctx.server_id s.last_log_index) n
                ∧ termAt s.log n = s.current_term
            then n else ci)
          s.commit_index := rfl
  rw [hred]
  rcases foldl_pick
      (fun n =>
        (ctx.peers.length + 1) / 2 + 1
            ≤ countGE (alistOrInsert s.match_index ctx.server_id s.last_log_index) n
          ∧ termAt s.log n = s.current_term)
      (List.range' (s.commit_index + 1) (s.last_log_index - s.commit_index))
      s.commit_index with h | ⟨hm, hp⟩
  · left; exact h
  · right
    have hrange := List.mem_range'_1.mp hm
    exact ⟨by omega, by omega, hp.1, hp.2⟩

/-- C4 as stated is false on the code: a node that observes a
`RequestVote` with a higher term (and denies the vote) steps down without
persisting, and a candidate that observes a higher term in a
`RequestVoteResponse` steps down without clearing `leaderId`. -/
theorem stepdown_counterexample :
    (handle_raft_message "A" 0
        (RaftState.mk 1 (some "A") ServerRole.Leader (some "A") 0 []
          [LogEntry.mk 0 "init", LogEntry.mk 1 "x"] 0 0 [] [])
        (RaftMessage.RequestVote 2 "B" 0 0)).state.current_term = 2 ∧
    (handle_raft_message "A" 0
        (RaftState.mk 1 (some "A") ServerRole.Leader (some "A") 0 []
          [LogEntry.mk 0 "init", LogEntry.mk 1 "x"] 0 0 [] [])
        (RaftMessage.RequestVote 2 "B" 0 0)).state.role = ServerRole.Follower ∧
    (handle_raft_message "A" 0
        (RaftState.mk 1 (some "A") ServerRole.Leader (some "A") 0 []
          [LogEntry.mk 0 "init", LogEntry.mk 1 "x"] 0 0 [] [])
        (RaftMessage.RequestVote 2 "B" 0 0)).persisted = false ∧
    (processVoteResponse 1
        (RaftState.mk 1 (some "A") ServerRole.Candidate (some "A") 0 []
          [LogEntry.mk 0 "init", LogEntry.mk 1 "x"] 0 0 [] [])
        2).leader_id = some "A" := by
  decide

/-- C4 amended: on an RPC request (`RequestVote`/`AppendEntries`) or an
`AppendEntriesResponse` carrying `term > currentTerm` the node adopts the
term, becomes Follower, and clears `votedFor` and `leaderId`; on a
`RequestVoteResponse` it adopts the term, becomes Follower, clears
`votedFor` but leaves `leaderId` untouched; no persist happens as part of
the step-down itself (e.g. a heartbeat AppendEntries that steps the node
down returns with `persisted = false`). -/
theorem stepdown_amended (s : RaftState) (t : Nat)
    (cid lid peer server_id : String) (now lli llt pli plt lc rlli : Nat)
    (ctx : LeaderCtx) (success : Bool) (pidx elen : Nat)
    (h : s.current_term < t) :
    ((allServerRule s (RaftMessage.RequestVote t cid lli llt)).current_term = t ∧
     (allServerRule s (RaftMessage.RequestVote t cid lli llt)).role = ServerRole.Follower ∧
     (allServerRule s (RaftMessage.RequestVote t cid lli llt)).voted_for = none ∧
     (allServerRule s (RaftMessage.RequestVote t cid lli llt)).leader_id = none) ∧
    ((allServerRule s (RaftMessage.AppendEntries t lid pli plt [] lc)).current_term = t ∧
     (allServerRule s (RaftMessage.AppendEntries t lid pli plt [] lc)).role = ServerRole.Follower ∧
     (allServerRule s (RaftMessage.AppendEntries t lid pli plt [] lc)).voted_for = none ∧
     (allServerRule s (RaftMessage.AppendEntries t lid pli plt [] lc)).leader_id = none) ∧
    (handle_raft_message server_id now s
        (RaftMessage.AppendEntries t lid pli plt [] lc)).persisted = false ∧
    ((processAppendResponse ctx s.current_term s peer t success rlli pidx elen).current_term = t ∧
     (processAppendResponse ctx s.current_term s peer t success rlli pidx elen).role = ServerRole.Follower ∧
     (processAppendResponse ctx s.current_term s peer t success rlli pidx elen).voted_for = none ∧
     (processAppendResponse ctx s.current_term s peer t success rlli pidx elen).leader_id = none) ∧
    ((processVoteResponse s.current_term s t).current_term = t ∧
     (processVoteResponse s.current_term s t).role = ServerRole.Follower ∧
     (processVoteResponse s.current_term s t).voted_for = none ∧
     (processVoteResponse s.current_term s t).leader_id = s.leader_id) := by
  refine ⟨?_, ?_, ?_, ?_, ?_⟩
  · simp [allServerRule, h]
  · simp [allServerRule, h]
  · simp only [handle_raft_message, allServerRule, if_pos h]
    have hnl : ¬ t < t := Nat.lt_irrefl t
    simp only [if_neg hnl]
    split
    · simp
    · simp
  · simp [processAppendResponse, h]
  · simp [processVoteResponse, h]

theorem stepdown_amended_witness :
    (handle_raft_message "A" 0 RaftState.new
        (RaftMessage.AppendEntries 1 "B" 0 0 [] 0)).persisted = false :=
  (stepdown_amended RaftState.new 1 "B" "B" "C" "A" 0 0 0 0 0 0 0
    (LeaderCtx.mk "A" ["B"]) true 0 0 (by decide)).2.2.1

theorem mergeLoop_eq_mergeSpec (entries : List LogEntry) :
    ∀ (log : List LogEntry) (i : Nat),
      mergeLoop log i entries = mergeSpec log i entries := by
  induction entries with
  | nil => intro log i; rfl
  | cons e rest ih =>
      intro log i
      by_cases hlt : i < log.length
      · have ht : termAt log i = (log.get ⟨i, hlt⟩).term := by
          simp [termAt, List.getElem?_eq_getElem hlt, List.get_eq_getElem]
        rw [mergeLoop, mergeSpec, dif_pos hlt, if_pos hlt, ht]
        by_cases hne : (log.get ⟨i, hlt⟩).term ≠ e.term
        · rw [if_pos hne, if_pos hne, ih]
        · rw [if_neg hne, if_neg hne, ih]
      · rw [mergeLoop, mergeSpec, dif_neg hlt, if_neg hlt, ih]

theorem mergeLoop_length (entries : List LogEntry) :
    ∀ (log : List LogEntry) (i : Nat), i ≤ log.length →
      i + entries.length ≤ (mergeLoop log i entries).length := by
  induction entries with
  | nil =>
      intro log i h
      simpa [mergeLoop] using h
  | cons e rest ih =>
      intro log i h
      by_cases hlt : i < log.length
      · rw [mergeLoop, dif_pos hlt]
        by_cases hne : (log.get ⟨i, hlt⟩).term ≠ e.term
        · rw [if_pos hne]
          have hlen : (log.take i ++ [e]).length = i + 1 := by
            simp [Nat.min_eq_left (Nat.le_of_lt hlt)]
          have h2 := ih (log.take i ++ [e]) (i + 1) (by omega)
          simp only [List.length_cons]
          omega
        · rw [if_neg hne]
          have h2 := ih log (i + 1) (by omega)
          simp only [List.length_cons]
          omega
      · rw [mergeLoop, dif_neg hlt]
        have hlen : (log ++ [e]).length = log.length + 1 := by simp
        have h2 := ih (log ++ [e]) (i + 1) (by omega)
        simp only [List.length_cons]
        omega

/-- C2: a follower handling an `AppendEntries` whose term is not below
`currentTerm` replies `success=false` with `lastLogIndex = len(log) - 1`
and leaves the log unchanged when the log-match check fails, and otherwise
merges the entries per the spec rule (conflict-truncate-append / keep /
append), replying `success=true` with `term = currentTerm` and
`lastLogIndex = len(log) - 1` of the merged log. -/
theorem follower_append_entries (server_id : String) (now : Nat)
    (s0 : RaftState) (term : Nat) (lid : String) (pli plt : Nat)
    (entries : List LogEntry) (lc : Nat) (h : s0.current_term ≤ term) :
    (handle_raft_message server_id now s0
        (RaftMessage.AppendEntries term lid pli plt entries lc)).state.current_term = term ∧
    (¬ (pli < s0.log.length ∧ termAt s0.log pli = plt) →
      (handle_raft_message server_id now s0
          (RaftMessage.AppendEntries term lid pli plt entries lc)).state.log = s0.log ∧
      (handle_raft_message server_id now s0
          (RaftMessage.AppendEntries term lid pli plt entries lc)).response
        = some (RaftMessage.AppendEntriesResponse term server_id false (s0.log.length - 1))) ∧
    ((pli < s0.log.length ∧ termAt s0.log pli = plt) →
      (handle_raft_message server_id now s0
          (RaftMessage.AppendEntries term lid pli plt entries lc)).state.log
        = mergeSpec s0.log (pli + 1) entries ∧
      (handle_raft_message server_id now s0
          (RaftMessage.AppendEntries term lid pli plt entries lc)).response
        = some (RaftMessage.AppendEntriesResponse term server_id true
            ((mergeSpec s0.log (pli + 1) entries).length - 1))) := by
  have hct : (allServerRule s0 (RaftMessage.AppendEntries term lid pli plt entries lc)).current_term = term := by
    by_cases hc : s0.current_term < term
    · simp [allServerRule, hc]
    · simp [allServerRule, hc]; omega
  have hlog : (allServerRule s0 (RaftMessage.AppendEntries term lid pli plt entries lc)).log = s0.log := by
    by_cases hc : s0.current_term < term
    · simp [allServerRule, hc]
    · simp [allServerRule, hc]
  simp only [handle_raft_message]
  rw [hct, hlog]
  rw [if_neg (Nat.lt_irrefl term)]
  by_cases hprev : pli < s0.log.length ∧ termAt s0.log pli = plt
  · rw [if_pos hprev]
    refine ⟨?_, fun hn => absurd hprev hn, fun _ => ?_⟩
    · by_cases hent : entries = []
      · simp only [if_pos hent]
        split
        · simp [hct]
        · simp [hct]
      · simp only [if_neg hent]
        split
        · simp [hct]
        · simp [hct]
    · by_cases hent : entries = []
      · subst hent
        simp only [if_pos rfl]
        constructor
        · split
          · simp [hlog, mergeSpec]
          · simp [hlog, mergeSpec]
        · split
          · simp [hct, hlog, mergeSpec, RaftState.last_log_index]
          · simp [hct, hlog, mergeSpec, RaftState.last_log_index]
      · simp only [if_neg hent]
        constructor
        · split
          · simp [hlog, mergeLoop_eq_mergeSpec]
          · simp [hlog, mergeLoop_eq_mergeSpec]
        · split
          · simp [hct, hlog, mergeLoop_eq_mergeSpec, RaftState.last_log_index]
          · simp [hct, hlog, mergeLoop_eq_mergeSpec, RaftState.last_log_index]
  · rw [if_neg hprev]
    refine ⟨by simp [hct], fun _ => ⟨by simp [hlog], ?_⟩, fun hp => absurd hp hprev⟩
    simp [hct, hlog, RaftState.last_log_index]

theorem follower_append_entries_witness :
    (handle_raft_message "F" 0 RaftState.new
        (RaftMessage.AppendEntries 1 "L" 0 0 [LogEntry.mk 1 "a"] 1)).state.log
      = mergeSpec RaftState.new.log 1 [LogEntry.mk 1 "a"] :=
  ((follower_append_entries "F" 0 RaftState.new 1 "L" 0 0 [LogEntry.mk 1 "a"] 1
      (by decide)).2.2 (by decide)).1

/-- C6 as stated is false on the code: an accepted AppendEntries whose
`leaderCommit` does not exceed `commitIndex` leaves `commitIndex`
unchanged while a conflict truncation in the same RPC shrinks the log, so
`commitIndex ≤ lastLogIndex` does not hold "at all times": here a follower
with `commitIndex = 2` accepts a truncating AppendEntries and ends with
`commitIndex = 2 > lastLogIndex = 1`. -/
theorem follower_commit_counterexample :
    (handle_raft_message "F" 0
        (RaftState.mk 2 none ServerRole.Follower none 0 []
          [LogEntry.mk 0 "init", LogEntry.mk 2 "a", LogEntry.mk 2 "b"] 2 0 [] [])
        (RaftMessage.AppendEntries 3 "L" 0 0 [LogEntry.mk 3 "c"] 0)).response
      = some (RaftMessage.AppendEntriesResponse 3 "F" true 1) ∧
    (handle_raft_message "F" 0
        (RaftState.mk 2 none ServerRole.Follower none 0 []
          [LogEntry.mk 0 "init", LogEntry.mk 2 "a", LogEntry.mk 2 "b"] 2 0 [] [])
        (RaftMessage.AppendEntries 3 "L" 0 0 [LogEntry.mk 3 "c"] 0)).state.commit_index = 2 ∧
    (handle_raft_message "F" 0
        (RaftState.mk 2 none ServerRole.Follower none 0 []
          [LogEntry.mk 0 "init", LogEntry.mk 2 "a", LogEntry.mk 2 "b"] 2 0 [] [])
        (RaftMessage.AppendEntries 3 "L" 0 0 [LogEntry.mk 3 "c"] 0)).state.last_log_index = 1 ∧
    ¬ (handle_raft_message "F" 0
        (RaftState.mk 2 none ServerRole.Follower none 0 []
          [LogEntry.mk 0 "init", LogEntry.mk 2 "a", LogEntry.mk 2 "b"] 2 0 [] [])
        (RaftMessage.AppendEntries 3 "L" 0 0 [LogEntry.mk 3 "c"] 0)).state.commit_index
      ≤ (handle_raft_message "F" 0
        (RaftState.mk 2 none ServerRole.Follower none 0 []
          [LogEntry.mk 0 "init", LogEntry.mk 2 "a", LogEntry.mk 2 "b"] 2 0 [] [])
        (RaftMessage.AppendEntries 3 "L" 0 0 [LogEntry.mk 3 "c"] 0)).state.last_log_index := by
  decide

/-- C6 amended: when a follower accepts an AppendEntries whose
`leaderCommit` exceeds its `commitIndex`, the resulting `commitIndex`
equals `min(leaderCommit, index of last new entry)` and is then
`≤ lastLogIndex`; when `leaderCommit ≤ commitIndex` the RPC leaves
`commitIndex` unchanged (and a conflict truncation in the same RPC may
leave it above `lastLogIndex`). -/
theorem follower_commit_amended (server_id : String) (now : Nat)
    (s0 : RaftState) (term : Nat) (lid : String) (pli plt : Nat)
    (entries : List LogEntry) (lc : Nat)
    (hterm : s0.current_term ≤ term)
    (hprev : pli < s0.log.length ∧ termAt s0.log pli = plt) :
    (s0.commit_index < lc →
      (handle_raft_message server_id now s0
          (RaftMessage.AppendEntries term lid pli plt entries lc)).state.commit_index
        = min lc (pli + entries.length) ∧
      (handle_raft_message server_id now s0
          (RaftMessage.AppendEntries term lid pli plt entries lc)).state.commit_index
        ≤ (handle_raft_message server_id now s0
            (RaftMessage.AppendEntries term lid pli plt entries lc)).state.last_log_index) ∧
    (lc ≤ s0.commit_index →
      (handle_raft_message server_id now s0
          (RaftMessage.AppendEntries term lid pli plt entries lc)).state.commit_index
        = s0.commit_index) := by
  have hct : (allServerRule s0 (RaftMessage.AppendEntries term lid pli plt entries lc)).current_term = term := by
    by_cases hc : s0.current_term < term
    · simp [allServerRule, hc]
    · simp [allServerRule, hc]; omega
  have hlog : (allServerRule s0 (RaftMessage.AppendEntries term lid pli plt entries lc)).log = s0.log := by
    by_cases hc : s0.current_term < term
    · simp [allServerRule, hc]
    · simp [allServerRule, hc]
  have hcmt : (allServerRule s0 (RaftMessage.AppendEntries term lid pli plt entries lc)).commit_index = s0.commit_index := by
    by_cases hc : s0.current_term < term
    · simp [allServerRule, hc]
    · simp [allServerRule, hc]
  simp only [handle_raft_message]
  rw [hct, hlog]
  rw [if_neg (Nat.lt_irrefl term)]
  rw [if_pos hprev]
  by_cases hcl : s0.commit_index < lc
  · refine ⟨fun _ => ?_, fun hle => absurd hcl (Nat.not_lt.mpr hle)⟩
    by_cases hent : entries = []
    · subst hent
      rw [if_pos (rfl : ([] : List LogEntry) = [])]
      rw [hcmt, if_pos hcl]
      have h1 := hprev.1
      refine ⟨by simp, ?_⟩
      simp only [RaftState.last_log_index, hlog]
      omega
    · rw [if_neg hent]
      rw [hcmt, if_pos hcl]
      have hml := mergeLoop_length entries s0.log (pli + 1) (by omega)
      refine ⟨rfl, ?_⟩
      simp only [RaftState.last_log_index]
      omega
  · refine ⟨fun hlt => absurd hlt hcl, fun _ => ?_⟩
    by_cases hent : entries = []
    · subst hent
      rw [if_pos (rfl : ([] : List LogEntry) = [])]
      rw [hcmt, if_neg hcl]
    · rw [if_neg hent]
      rw [hcmt, if_neg hcl]

theorem follower_commit_amended_witness :
    (handle_raft_message "F" 0 RaftState.new
        (RaftMessage.AppendEntries 1 "L" 0 0 [LogEntry.mk 1 "a"] 5)).state.commit_index
      = min 5 (0 + [LogEntry.mk 1 "a"].length) :=
  ((follower_commit_amended "F" 0 RaftState.new 1 "L" 0 0 [LogEntry.mk 1 "a"] 5
      (by decide) (by decide)).1 (by decide)).1

/-- C3: a `RequestVote` with `term < currentTerm` is denied outright with
the node unchanged; otherwise the vote is granted exactly when (`votedFor`
absent or already `candidateId`, after any term adoption) and the
candidate's log is at least as up-to-date (`lastLogTerm` greater, or equal
with `lastLogIndex ≥` ours); a grant sets `votedFor := candidateId`,
resets `lastHeartbeat`, persists, and replies `voteGranted=true` with
`term = currentTerm`. -/
theorem request_vote_semantics (server_id : String) (now : Nat)
    (s0 : RaftState) (term : Nat) (cid : String) (lli llt : Nat) :
    (term < s0.current_term →
      handle_raft_message server_id now s0 (RaftMessage.RequestVote term cid lli llt)
        = StepResult.mk s0
            (some (RaftMessage.RequestVoteResponse s0.current_term false server_id))
            false) ∧
    (s0.current_term ≤ term →
      ((handle_raft_message server_id now s0
            (RaftMessage.RequestVote term cid lli llt)).response
          = some (RaftMessage.RequestVoteResponse term true server_id) ↔
        (((allServerRule s0 (RaftMessage.RequestVote term cid lli llt)).voted_for = none ∨
          (allServerRule s0 (RaftMessage.RequestVote term cid lli llt)).voted_for = some cid) ∧
         (llt > s0.last_log_term ∨ (llt = s0.last_log_term ∧ lli ≥ s0.last_log_index)))) ∧
      ((handle_raft_message server_id now s0
            (RaftMessage.RequestVote term cid lli llt)).response
          = some (RaftMessage.RequestVoteResponse term true server_id) →
        (handle_raft_message server_id now s0
            (RaftMessage.RequestVote term cid lli llt)).state.voted_for = some cid ∧
        (handle_raft_message server_id now s0
            (RaftMessage.RequestVote term cid lli llt)).state.last_heartbeat = now ∧
        (handle_raft_message server_id now s0
            (RaftMessage.RequestVote term cid lli llt)).persisted = true ∧
        (handle_raft_message server_id now s0
            (RaftMessage.RequestVote term cid lli llt)).state.current_term = term)) := by
  constructor
  · intro hlt
    have hns : ¬ s0.current_term < term := by omega
    simp only [handle_raft_message, allServerRule, if_neg hns]
    rw [if_pos hlt]
  · intro hge
    have hct : (allServerRule s0 (RaftMessage.RequestVote term cid lli llt)).current_term = term := by
      by_cases hc : s0.current_term < term
      · simp [allServerRule, hc]
      · simp [allServerRule, hc]; omega
    have hlog : (allServerRule s0 (RaftMessage.RequestVote term cid lli llt)).log = s0.log := by
      by_cases hc : s0.current_term < term
      · simp [allServerRule, hc]
      · simp [allServerRule, hc]
    have hllt : (allServerRule s0 (RaftMessage.RequestVote term cid lli llt)).last_log_term
        = s0.last_log_term := by
      simp [RaftState.last_log_term, hlog]
    have hlli : (allServerRule s0 (RaftMessage.RequestVote term cid lli llt)).last_log_index
        = s0.last_log_index := by
      simp [RaftState.last_log_index, hlog]
    simp only [handle_raft_message]
    rw [hct, hllt, hlli]
    rw [if_neg (Nat.lt_irrefl term)]
    by_cases hv : (allServerRule s0 (RaftMessage.RequestVote term cid lli llt)).voted_for = none ∨
        (allServerRule s0 (RaftMessage.RequestVote term cid lli llt)).voted_for = some cid
    · rw [if_pos hv]
      by_cases hu : llt > s0.last_log_term ∨ (llt = s0.last_log_term ∧ lli ≥ s0.last_log_index)
      · rw [if_pos hu]
        exact ⟨by simp [hv, hu], fun _ => ⟨rfl, rfl, rfl, rfl⟩⟩
      · rw [if_neg hu]
        refine ⟨?_, ?_⟩
        · simp only [hct]
          constructor
          · intro hresp
            exact absurd hresp (by simp)
          · intro hrhs
            exact absurd hrhs.2 hu
        · intro hresp
          exact absurd hresp (by simp [hct])
    · rw [if_neg hv]
      refine ⟨?_, ?_⟩
      · simp only [hct]
        constructor
        · intro hresp
          exact absurd hresp (by simp)
        · intro hrhs
          exact absurd hrhs.1 hv
      · intro hresp
        exact absurd hresp (by simp [hct])

theorem request_vote_semantics_witness :
    (handle_raft_message "A" 7 RaftState.new
        (RaftMessage.RequestVote 1 "B" 0 0)).state.voted_for = some "B" :=
  (((request_vote_semantics "A" 7 RaftState.new 1 "B" 0 0).2 (by decide)).2
    (by decide)).1

theorem electionLoop_leader_iff (majority current_term : Nat) :
    ∀ (rs : List (Option (Nat × Bool))) (votes : Nat),
      (∀ t g, some (t, g) ∈ rs → t ≤ current_term) →
      (electionLoop majority current_term votes rs = ElectionOutcome.leader ↔
        majority ≤ votes + countGranted rs) := by
  intro rs
  induction rs with
  | nil =>
      intro votes _
      simp only [electionLoop, countGranted, List.filter_nil, List.length_nil,
        Nat.add_zero]
      split
      · next hle => simp [hle]
      · next hle => simp [hle]
  | cons r rest ih =>
      intro votes hno
      match r with
      | some (t, g) =>
          have hrest : ∀ t' g', some (t', g') ∈ rest → t' ≤ current_term :=
            fun t' g' hm => hno t' g' (List.mem_cons_of_mem _ hm)
          have ht : ¬ current_term < t := by
            have := hno t g (List.mem_cons_self _ _)
            omega
          cases g with
          | true =>
              rw [electionLoop, if_neg ht, if_pos rfl]
              have hcg : countGranted (some (t, true) :: rest)
                  = countGranted rest + 1 := by
                simp [countGranted]
              by_cases hm : majority ≤ votes + 1
              · rw [if_pos hm, hcg]
                constructor
                · intro _; omega
                · intro _; rfl
              · rw [if_neg hm, hcg, ih (votes + 1) hrest]
                omega
          | false =>
              rw [electionLoop, if_neg ht, if_neg (by simp : ¬ false = true)]
              have hcg : countGranted (some (t, false) :: rest)
                  = countGranted rest := by
                simp [countGranted]
              rw [hcg, ih votes hrest]
      | none =>
          have hrest : ∀ t' g', some (t', g') ∈ rest → t' ≤ current_term :=
            fun t' g' hm => hno t' g' (List.mem_cons_of_mem _ hm)
          rw [electionLoop]
          have hcg : countGranted (none :: rest) = countGranted rest := by
            simp [countGranted]
          rw [hcg, ih votes hrest]

theorem leaderInit_fold_preserve (L : Nat) :
    ∀ (peers : List String) (st : RaftState) (p : String), p ∉ peers →
      alistGet (peers.foldl (leaderInitStep L) st).next_index p
        = alistGet st.next_index p ∧
      alistGet (peers.foldl (leaderInitStep L) st).match_index p
        = alistGet st.match_index p := by
  intro peers
  induction peers with
  | nil => intro st p _; exact ⟨rfl, rfl⟩
  | cons q rest ih =>
      intro st p hp
      have hpq : p ≠ q := fun h => hp (h ▸ List.mem_cons_self _ _)
      have hprest : p ∉ rest := fun h => hp (List.mem_cons_of_mem _ h)
      simp only [List.foldl_cons]
      obtain ⟨h1, h2⟩ := ih (leaderInitStep L st q) p hprest
      constructor
      · rw [h1]
        exact alistGet_insert_ne _ _ _ _ hpq
      · rw [h2]
        exact alistGet_insert_ne _ _ _ _ hpq

theorem leaderInit_fold_mem (L : Nat) :
    ∀ (peers : List String) (st : RaftState) (p : String), p ∈ peers →
      alistGet (peers.foldl (leaderInitStep L) st).next_index p = some (L + 1) ∧
      alistGet (peers.foldl (leaderInitStep L) st).match_index p = some 0 := by
  intro peers
  induction peers with
  | nil => intro st p hp; exact absurd hp (List.not_mem_nil p)
  | cons q rest ih =>
      intro st p hp
      simp only [List.foldl_cons]
      by_cases hr : p ∈ rest
      · exact ih _ p hr
      · have hpq : p = q := by
          rcases List.mem_cons.mp hp with h | h
          · exact h
          · exact absurd h hr
        subst hpq
        obtain ⟨h1, h2⟩ := leaderInit_fold_preserve L rest (leaderInitStep L st p) p hr
        rw [h1, h2]
        exact ⟨alistGet_insert_self _ _ _, alistGet_insert_self _ _ _⟩

theorem leaderInit_fold_fields (L : Nat) :
    ∀ (peers : List String) (st : RaftState),
      (peers.foldl (leaderInitStep L) st).role = st.role ∧
      (peers.foldl (leaderInitStep L) st).leader_id = st.leader_id ∧
      (peers.foldl (leaderInitStep L) st).log = st.log ∧
      (peers.foldl (leaderInitStep L) st).current_term = st.current_term ∧
      (peers.foldl (leaderInitStep L) st).commit_index = st.commit_index := by
  intro peers
  induction peers with
  | nil => intro st; exact ⟨rfl, rfl, rfl, rfl, rfl⟩
  | cons q rest ih =>
      intro st
      simp only [List.foldl_cons]
      exact ih (leaderInitStep L st q)

theorem map_fst_pair {α β : Type} (f : α → β) (l : List α) :
    (l.map (fun p => (p, f p))).map Prod.fst = l := by
  induction l with
  | nil => rfl
  | cons a tl ih => simp [ih]

theorem buildAppendEntries_shape (server_id : String) (ct lc : Nat)
    (s : RaftState) (peer : String) :
    ∃ pli plt es, buildAppendEntries server_id ct lc s peer
      = RaftMessage.AppendEntries ct server_id pli plt es lc :=
  ⟨_, _, _, rfl⟩

/-- C8: absent any higher-term response, a candidate becomes Leader
exactly when granted votes (self-vote included) reach
`(|peers| + 1) / 2 + 1`; on entry it sets `leaderId := self`,
`nextIndex[p] := lastLogIndex + 1` and `matchIndex[p] := 0` for every
peer, `matchIndex[self] := lastLogIndex`, and immediately builds one
AppendEntries (carrying its term and commit index) for every peer. -/
theorem candidate_to_leader (server_id : String) (peers : List String)
    (s : RaftState) (current_term : Nat)
    (responses : List (Option (Nat × Bool)))
    (hno : ∀ t g, some (t, g) ∈ responses → t ≤ current_term)
    (hself : server_id ∉ peers) :
    (electionLoop ((peers.length + 1) / 2 + 1) current_term 1 responses
        = ElectionOutcome.leader ↔
      (peers.length + 1) / 2 + 1 ≤ 1 + countGranted responses) ∧
    (become_leader_step server_id peers s).1.role = ServerRole.Leader ∧
    (become_leader_step server_id peers s).1.leader_id = some server_id ∧
    (∀ p ∈ peers,
      alistGet (become_leader_step server_id peers s).1.next_index p
        = some (s.last_log_index + 1) ∧
      alistGet (become_leader_step server_id peers s).1.match_index p = some 0) ∧
    alistGet (become_leader_step server_id peers s).1.match_index server_id
      = some s.last_log_index ∧
    (become_leader_step server_id peers s).2.map Prod.fst = peers ∧
    (∀ pr ∈ (become_leader_step server_id peers s).2,
      ∃ pli plt es,
        pr.2 = RaftMessage.AppendEntries s.current_term server_id pli plt es
                 s.commit_index) := by
  have hiff := electionLoop_leader_iff ((peers.length + 1) / 2 + 1) current_term
    responses 1 hno
  obtain ⟨hrole, hlid, hlog, hct, hcm⟩ :=
    leaderInit_fold_fields
      (({ s with role := ServerRole.Leader, leader_id := some server_id } : RaftState).last_log_index)
      peers
      { s with role := ServerRole.Leader, leader_id := some server_id }
  refine ⟨by simpa using hiff, ?_, ?_, ?_, ?_, ?_, ?_⟩
  · exact hrole
  · exact hlid
  · intro p hp
    have hps : p ≠ server_id := fun h => hself (h ▸ hp)
    refine ⟨?_, ?_⟩
    · exact (leaderInit_fold_mem _ peers _ p hp).1
    · show alistGet (alistInsert _ server_id _) p = some 0
      rw [alistGet_insert_ne _ _ _ _ hps]
      exact (leaderInit_fold_mem _ peers _ p hp).2
  · exact alistGet_insert_self _ _ _
  · exact map_fst_pair _ peers
  · intro pr hpr
    simp only [become_leader_step, sendAppendEntriesRound] at hpr
    rcases List.mem_map.mp hpr with ⟨p, hp, rfl⟩
    obtain ⟨a, b, c, heq⟩ :=
      buildAppendEntries_shape server_id
        (become_leader_internal server_id peers s).current_term
        (become_leader_internal server_id peers s).commit_index
        (become_leader_internal server_id peers s) p
    refine ⟨a, b, c, heq.trans ?_⟩
    have h1 : (become_leader_internal server_id peers s).current_term
        = s.current_term := hct
    have h2 : (become_leader_internal server_id peers s).commit_index
        = s.commit_index := hcm
    rw [h1, h2]

theorem candidate_to_leader_witness :
    electionLoop (((["B", "C"] : List String).length + 1) / 2 + 1) 1 1
        [some (1, true), none] = ElectionOutcome.leader :=
  (candidate_to_leader "A" ["B", "C"] RaftState.new 1 [some (1, true), none]
      (by intro t g hm; simp at hm; omega) (by decide)).1.mpr (by decide)
